import Mathlib

/-
Verification of the owned_ptr repository (owner/reader smart-pointer pair).

Two variants are embedded:
* the shared-read variant of src/owned_ptr.hpp (classes owned_ptr / reader_ptr),
  modelled as a single-owner state machine whose readers live in an association
  list keyed by their address;
* the exclusive-lock variant of src/unnamed/part_001 (classes owned_ptr /
  child_ptr), modelled just far enough for its lock/unlock/try_lock/remove_
  members.

Pointers are modelled as Option Nat (none = nullptr, some a = the address a).
Each C++ member function becomes a Lean function on the system state.  A member
whose body can block forever (a spin or a mutex acquisition that cannot make
progress without another thread) returns Option: none means the call does not
complete in the absence of outside interference; the registry-search loops,
which never advance their iterator, additionally get fuel-indexed versions so
that non-termination is expressible.
-/

namespace OwnedPtr

/-- State of one reader_ptr object (src/owned_ptr.hpp): the fields value_,
locked_ and parent_.  The model has a single owner, so parent_ is a Bool:
true means parent_ points at the owner, false means parent_ == nullptr. -/
structure ReaderSt where
  value  : Option Nat
  locked : Option Nat
  parent : Bool
deriving DecidableEq, Repr

/-- State produced by the default constructor reader_ptr():
value_ = nullptr, locked_ = nullptr, parent_ = nullptr. -/
def ReaderSt.init : ReaderSt := ⟨none, none, false⟩

/-- Whole-system state for the shared-read variant: the owner's value_ and
children_ registry (a deque of reader addresses, front = begin()), whether the
owner object is still alive, and the live reader objects keyed by address. -/
structure SharedSys where
  ownerLive : Bool
  value     : Option Nat
  children  : List Nat
  readers   : List (Nat × ReaderSt)
deriving DecidableEq, Repr

/-- Look up a reader object by address. -/
def lookupR : List (Nat × ReaderSt) → Nat → Option ReaderSt
  | [], _ => none
  | p :: rest, id => if p.1 = id then some p.2 else lookupR rest id

/-- Update the reader object at an address. -/
def updateR (rs : List (Nat × ReaderSt)) (id : Nat) (f : ReaderSt → ReaderSt) :
    List (Nat × ReaderSt) :=
  rs.map fun p => if p.1 = id then (p.1, f p.2) else p

/-- Remove the reader object at an address (the object is destroyed). -/
def eraseR (rs : List (Nat × ReaderSt)) (id : Nat) : List (Nat × ReaderSt) :=
  rs.filter fun p => p.1 != id

/-- Number of live readers whose parent_ points at the owner. -/
def countParent (rs : List (Nat × ReaderSt)) : Nat :=
  (rs.filter fun p => p.2.parent).length

/-- Models owned_ptr::count (src/owned_ptr.hpp lines 226-231): returns
children_.size(). -/
def count (s : SharedSys) : Nat := s.children.length

/-- Value returned by reader_ptr::lock (src/owned_ptr.hpp lines 313-316):
the call evaluates locked_ = value_ and returns it, so the returned pointer is
the reader's cached value_ field. -/
def lockResult (s : SharedSys) (id : Nat) : Option Nat :=
  match lookupR s.readers id with
  | some r => r.value
  | none => none

/-- The locked_ field of the reader at an address (none when the address is not
a live reader, in which case dereferencing it would be undefined). -/
def lockedOf (s : SharedSys) (id : Nat) : Option Nat :=
  match lookupR s.readers id with
  | some r => r.locked
  | none => none

/-- State effect of reader_ptr::lock (src/owned_ptr.hpp lines 313-316):
locked_ = value_.  Takes no mutex. -/
def lockOp (s : SharedSys) (id : Nat) : SharedSys :=
  { s with readers := updateR s.readers id fun r => { r with locked := r.value } }

/-- Models reader_ptr::unlock (src/owned_ptr.hpp lines 318-321):
locked_ = nullptr.  Takes no mutex. -/
def unlockOp (s : SharedSys) (id : Nat) : SharedSys :=
  { s with readers := updateR s.readers id fun r => { r with locked := none } }

/-- Models the default constructor reader_ptr() at a fresh address (an address
that is neither a live reader nor a stale registry entry). -/
def newROp (s : SharedSys) (id : Nat) : Option SharedSys :=
  if (lookupR s.readers id).isNone && !(s.children.contains id) then
    some { s with readers := (id, ReaderSt.init) :: s.readers }
  else none

/-- Models owned_ptr::get (src/owned_ptr.hpp lines 191-198) together with the
reader_ptr::set_owner_ call it makes (lines 323-332): under the owner's mutex,
reader.value_ = value_; set_owner_ would call parent_->remove_(this) when the
reader is already attached, which re-acquires the owner's mutex already held by
get and therefore never completes (none); otherwise parent_ = owner and the
reader is pushed onto the registry.  Calling get on a destroyed owner is
undefined (none). -/
def attachOp (s : SharedSys) (id : Nat) : Option SharedSys :=
  match lookupR s.readers id with
  | none => none
  | some r =>
    if s.ownerLive && !r.parent then
      some { s with
        readers := updateR s.readers id fun r0 => { r0 with value := s.value, parent := true },
        children := s.children ++ [id] }
    else none

/-- Models owned_ptr::remove_ (src/owned_ptr.hpp lines 233-252) as the result
of the call when it completes.  The search loop never advances its iterator,
so: an empty registry falls through the loop to assert(true) and returns with
no erase; if the first entry is the sought reader, the inner loop spins while
its locked_ == nullptr (none when locked_ is null: without interference the
spin never ends), then erases; if the first entry is a different reader the
outer loop never ends (none); a stale first entry is dereferenced (none,
undefined). -/
def removeOp (s : SharedSys) (id : Nat) : Option SharedSys :=
  match s.children with
  | [] => some s
  | c :: rest =>
    if c = id then
      match lookupR s.readers c with
      | some rc => if rc.locked != none then some { s with children := rest } else none
      | none => none
    else none

/-- Fuel-indexed execution of the owned_ptr::remove_ loop (src/owned_ptr.hpp
lines 233-252), one loop iteration per unit of fuel; none means the loop has
not finished within the given fuel. -/
def removeFuel (s : SharedSys) (id : Nat) : Nat → Option SharedSys
  | 0 => none
  | n + 1 =>
    match s.children with
    | [] => some s
    | c :: rest =>
      if c = id then
        match lookupR s.readers c with
        | some rc => if rc.locked != none then some { s with children := rest }
                     else removeFuel s id n
        | none => none
      else removeFuel s id n

/-- The remove_ call eventually completes. -/
def RemoveTerminates (s : SharedSys) (id : Nat) : Prop :=
  ∃ n s', removeFuel s id n = some s'

/-- Models owned_ptr::replace_ (src/owned_ptr.hpp lines 254-270) as the result
of the call when it completes: the search loop never advances its iterator, so
an empty registry returns unchanged (assert(true) is a no-op), a first entry
equal to the sought reader is overwritten in place, and any other first entry
makes the loop run forever (none). -/
def replaceOp (s : SharedSys) (oldId newId : Nat) : Option SharedSys :=
  match s.children with
  | [] => some s
  | c :: rest => if c = oldId then some { s with children := newId :: rest } else none

/-- Fuel-indexed execution of the owned_ptr::replace_ loop (src/owned_ptr.hpp
lines 254-270), one loop iteration per unit of fuel. -/
def replaceFuel (s : SharedSys) (oldId newId : Nat) : Nat → Option SharedSys
  | 0 => none
  | n + 1 =>
    match s.children with
    | [] => some s
    | c :: rest =>
      if c = oldId then some { s with children := newId :: rest }
      else replaceFuel s oldId newId n

/-- The replace_ call eventually completes. -/
def ReplaceTerminates (s : SharedSys) (oldId newId : Nat) : Prop :=
  ∃ n s', replaceFuel s oldId newId n = some s'

/-- Models the destructor reader_ptr::~reader_ptr (src/owned_ptr.hpp lines
303-311): if parent_ != nullptr it calls parent_->remove_(this) (undefined when
the owner is already destroyed, since parent_ then dangles), then the object is
destroyed. -/
def dtorROp (s : SharedSys) (id : Nat) : Option SharedSys :=
  match lookupR s.readers id with
  | none => none
  | some r =>
    if r.parent then
      if s.ownerLive then
        (removeOp s id).map fun s1 => { s1 with readers := eraseR s1.readers id }
      else none
    else some { s with readers := eraseR s.readers id }

/-- Models the copy constructor reader_ptr(reader_ptr&) (src/owned_ptr.hpp
lines 282-290): default-construct at a fresh address, then, when the source has
a parent, call that parent's get on the new object. -/
def copyOp (s : SharedSys) (src newId : Nat) : Option SharedSys :=
  match lookupR s.readers src with
  | none => none
  | some rs =>
    (newROp s newId).bind fun s0 =>
      if rs.parent then attachOp s0 newId else some s0

/-- Models the move constructor reader_ptr(reader_ptr&&) (src/owned_ptr.hpp
lines 292-301): default-construct at a fresh address, then, when the source has
a parent, call parent_->replace_(&other, this).  Note the source code neither
clears other.parent_ nor assigns the new object's parent_ or value_. -/
def moveOp (s : SharedSys) (src newId : Nat) : Option SharedSys :=
  match lookupR s.readers src with
  | none => none
  | some rs =>
    (newROp s newId).bind fun s0 =>
      if rs.parent then
        if s0.ownerLive then replaceOp s0 src newId else none
      else some s0

/-- Assignment child->value_ = value performed by the reset scan loop. -/
def setValue (v : Option Nat) (r : ReaderSt) : ReaderSt := { r with value := v }

/-- Neutralisation child->value_ = nullptr; child->set_owner_(nullptr)
performed on every registry entry by the owner destructor. -/
def killReader (r : ReaderSt) : ReaderSt := { r with value := none, parent := false }

/-- The first phase of owned_ptr::reset (src/owned_ptr.hpp lines 200-224): the
for loop over children_ assigns child->value_ = value for every registry entry
(and fills the update_ worklist with the entries whose locked_ != nullptr). -/
def scanned (s : SharedSys) (v : Option Nat) : SharedSys :=
  { s with readers := s.readers.map fun p =>
      if s.children.contains p.1 then (p.1, setValue v p.2) else p }

/-- Models owned_ptr::reset (src/owned_ptr.hpp lines 200-224) as the result of
the call when it completes: after the scan phase, the while loop drains the
update_ worklist, erasing an entry once its locked_ is nullptr or the new
value; without interference this finishes exactly when every registry entry's
locked_ is nullptr or the new value, after which the old value is deleted and
value_ = value.  Dereferencing a stale registry entry, or calling reset on a
destroyed owner, is undefined (none). -/
def resetOp (s : SharedSys) (v : Option Nat) : Option SharedSys :=
  if s.ownerLive && s.children.all (fun cid => (lookupR s.readers cid).isSome) then
    if (scanned s v).children.all
        (fun cid => lockedOf (scanned s v) cid == none || lockedOf (scanned s v) cid == v) then
      some { scanned s v with value := v }
    else none
  else none

/-- Models the destructor owned_ptr::~owned_ptr (src/owned_ptr.hpp lines
175-189) as the result of the call when it completes: for each registry entry
in order, child->value_ = nullptr, child->set_owner_(nullptr), then spin while
child->locked_ != nullptr; without interference this finishes exactly when
every registry entry's locked_ is already nullptr.  Finally delete value_. -/
def dtorOOp (s : SharedSys) : Option SharedSys :=
  if s.ownerLive && s.children.all (fun cid => (lookupR s.readers cid).isSome)
      && s.children.all (fun cid => lockedOf s cid == none) then
    some { ownerLive := false,
           value := none,
           children := s.children,
           readers := s.readers.map fun p =>
             if s.children.contains p.1 then (p.1, killReader p.2) else p }
  else none

/-- One client-visible operation on the shared-variant system. -/
inductive Op where
  | newR (id : Nat)
  | attach (id : Nat)
  | copy (src newId : Nat)
  | move (src newId : Nat)
  | dtorR (id : Nat)
  | reset (v : Option Nat)
  | dtorO
  | lockR (id : Nat)
  | unlockR (id : Nat)

/-- Effect of one operation; none when the call is undefined or does not
complete. -/
def step (s : SharedSys) : Op → Option SharedSys
  | .newR id => newROp s id
  | .attach id => attachOp s id
  | .copy a b => copyOp s a b
  | .move a b => moveOp s a b
  | .dtorR id => dtorROp s id
  | .reset v => resetOp s v
  | .dtorO => dtorOOp s
  | .lockR id => if (lookupR s.readers id).isSome then some (lockOp s id) else none
  | .unlockR id => if (lookupR s.readers id).isSome then some (unlockOp s id) else none

/-- Run a sequence of operations. -/
def run (s : SharedSys) : List Op → Option SharedSys
  | [] => some s
  | op :: ops => (step s op).bind fun s1 => run s1 ops

/-- Initial state: the owner constructed with (or without) a value, no
readers.  Models owned_ptr() and owned_ptr(Type*) (src/owned_ptr.hpp lines
166-169). -/
def init (v : Option Nat) : SharedSys := ⟨true, v, [], []⟩

/-- States reachable from a freshly constructed owner by completed calls. -/
def Reachable (s : SharedSys) : Prop := ∃ v ops, run (init v) ops = some s

end OwnedPtr

namespace OwnedPtrExcl

/-- State of one child_ptr object of the exclusive-lock variant
(src/unnamed/part_001): parent_ (single owner, like the shared model), the
locked_ flag, and whether the child's own mutex_ is currently held. -/
structure ChildSt where
  parent : Bool
  locked : Bool
  mtx    : Bool
deriving DecidableEq, Repr

/-- Whole-system state for the exclusive-lock variant: the owner's value_ and
mutex_ and children_ registry, plus the live child objects keyed by address. -/
structure ExclSys where
  value    : Option Nat
  ownerMtx : Bool
  children : List Nat
  childs   : List (Nat × ChildSt)
deriving DecidableEq, Repr

/-- Look up a child object by address. -/
def lookupC : List (Nat × ChildSt) → Nat → Option ChildSt
  | [], _ => none
  | p :: rest, id => if p.1 = id then some p.2 else lookupC rest id

/-- Update the child object at one address. -/
def updateC (cs : List (Nat × ChildSt)) (id : Nat) (f : ChildSt → ChildSt) :
    List (Nat × ChildSt) :=
  cs.map fun p => if p.1 = id then (p.1, f p.2) else p

/-- Models child_ptr::lock (src/unnamed/part_001 lines 253-257) with its
helper lock_ (lines 157-166): mutex_.lock() acquires the child's OWN mutex
(none when already held: the call blocks); then, if parent_ != nullptr,
locked_ = true and parent_->value_ is returned with the child's mutex kept;
otherwise the child's mutex is released again and nullptr is returned.  The
owner's mutex_ is never touched. -/
def exclLock (s : ExclSys) (id : Nat) : Option (Option Nat × ExclSys) :=
  match lookupC s.childs id with
  | none => none
  | some c =>
    if c.mtx then none
    else if c.parent then
      some (s.value,
        { s with childs := updateC s.childs id fun c0 => { c0 with mtx := true, locked := true } })
    else some (none, s)

/-- Models child_ptr::unlock (src/unnamed/part_001 lines 274-282): when
locked_, it releases the child's own mutex_ and then parent_->mutex_; releasing
a mutex the thread does not hold is undefined (none), as is dereferencing a
null parent_; when not locked_ the call is a no-op. -/
def exclUnlock (s : ExclSys) (id : Nat) : Option ExclSys :=
  match lookupC s.childs id with
  | none => none
  | some c =>
    if c.locked then
      if c.mtx then
        if c.parent then
          if s.ownerMtx then
            some { s with
                    ownerMtx := false,
                    childs := updateC s.childs id fun c0 =>
                      { c0 with mtx := false, locked := false } }
          else none
        else none
      else none
    else some s

/-- Fuel-indexed execution of the exclusive variant's owned_ptr::remove_ loop
(src/unnamed/part_001 lines 216-232): the search loop never advances its
iterator; an empty registry falls through to assert(true), a first entry equal
to the sought child is erased, any other first entry loops forever. -/
def exclRemoveFuel (s : ExclSys) (id : Nat) : Nat → Option ExclSys
  | 0 => none
  | n + 1 =>
    match s.children with
    | [] => some s
    | c :: rest =>
      if c = id then some { s with children := rest }
      else exclRemoveFuel s id n

/-- The exclusive variant's remove_ call eventually completes. -/
def ExclRemoveTerminates (s : ExclSys) (id : Nat) : Prop :=
  ∃ n s', exclRemoveFuel s id n = some s'

/-- Models child_ptr::try_lock (src/unnamed/part_001 lines 259-272).  Attempt
i of the do-while loop: mutex_.try_lock() succeeds when avail i; on success
lock_ runs (owner's value when parent_ != nullptr, else nullptr).  On failure
the loop condition is now0 + timeout < clock i, where now0 is the time(&now)
sample taken before the loop and clock i the time(nullptr) sample of attempt i:
the loop repeats only when that holds, else nullptr is returned.  The result is
none while the loop is still running after the given fuel. -/
def tryLockFuel (avail : Nat → Bool) (clock : Nat → Nat) (now0 timeout : Nat)
    (parent : Bool) (v : Option Nat) : Nat → Nat → Option (Option Nat)
  | 0, _ => none
  | n + 1, i =>
    if avail i then some (if parent then v else none)
    else if now0 + timeout < clock i then
      tryLockFuel avail clock now0 timeout parent v n (i + 1)
    else some none

/-- The try_lock call never returns, no matter how many loop iterations run. -/
def TryLockStuck (avail : Nat → Bool) (clock : Nat → Nat) (now0 timeout : Nat)
    (parent : Bool) (v : Option Nat) : Prop :=
  ∀ n i, tryLockFuel avail clock now0 timeout parent v n i = none

end OwnedPtrExcl

namespace OwnedPtr

/-- Concrete state reached by attaching reader 0 and move-constructing reader 1
from it: the registry holds only the new reader 1, yet reader 0 still has
parent_ set and reader 1 does not. -/
def c4bugS : SharedSys :=
  ⟨true, some 1, [1], [(1, ⟨none, none, false⟩), (0, ⟨some 1, none, true⟩)]⟩

/-- Concrete state reached by attach 0, move 0 into 1, reset to 2: reader 0 is
still attached (parent_ set) to the live owner but caches the stale value 1. -/
def c1cexS : SharedSys :=
  ⟨true, some 2, [1], [(1, ⟨some 2, none, false⟩), (0, ⟨some 1, none, true⟩)]⟩

/-- Concrete reachable state with one registered, synced reader. -/
def c1WitS : SharedSys := ⟨true, some 3, [0], [(0, ⟨some 3, none, true⟩)]⟩

/-- Concrete state reached by attach 0, lock 0, move 0 into 1: reader 0 is
attached and mid-access on the old value 1 but absent from the registry. -/
def c2cexS : SharedSys :=
  ⟨true, some 1, [1], [(1, ⟨none, none, false⟩), (0, ⟨some 1, some 1, true⟩)]⟩

/-- Concrete reachable state with one registered, unlocked reader. -/
def c2WitS : SharedSys := ⟨true, some 1204, [0], [(0, ⟨some 1204, none, true⟩)]⟩

/-- Registry holds reader 0 whose locked_ is non-null (mid-access). -/
def c3bugS : SharedSys := ⟨true, some 1, [0], [(0, ⟨some 1, some 1, true⟩)]⟩

/-- Registry holds reader 0 whose locked_ is null (idle). -/
def c3idleS : SharedSys := ⟨true, some 1, [0], [(0, ⟨some 1, none, true⟩)]⟩

/-- Concrete reachable state with one registered reader. -/
def c5WitS : SharedSys := ⟨true, some 3, [0], [(0, ⟨some 3, none, true⟩)]⟩

/-- State after attach 0, lock 0, move 0 into 1, reset to 2, unlock 0,
lock 0 again: reader 0 observes the stale value 1, not the new value 2. -/
def c6cexS : SharedSys :=
  ⟨true, some 2, [1], [(1, ⟨some 2, none, false⟩), (0, ⟨some 1, some 1, true⟩)]⟩

/-- Concrete state with one registered reader mid-access on the value 1204. -/
def c6WitS : SharedSys :=
  ⟨true, some 1204, [0], [(0, ⟨some 1204, some 1204, true⟩)]⟩

/-- Concrete state with one registered reader, not mid-access. -/
def c8WitS : SharedSys := ⟨true, some 3, [0], [(0, ⟨some 3, none, true⟩)]⟩

/-- Registry whose first (and only) entry is the idle reader 0. -/
def c10cexS : SharedSys := ⟨true, some 1, [0], [(0, ⟨some 1, none, true⟩)]⟩

end OwnedPtr

namespace OwnedPtrExcl

/-- Owner holding value 7 with two attached children, nothing locked. -/
def c9bugS : ExclSys :=
  ⟨some 7, false, [0, 1], [(0, ⟨true, false, false⟩), (1, ⟨true, false, false⟩)]⟩

/-- State after child 0's lock(): child 0 holds only its own mutex; the
owner's mutex is still free. -/
def c9bugS1 : ExclSys :=
  ⟨some 7, false, [0, 1], [(0, ⟨true, true, true⟩), (1, ⟨true, false, false⟩)]⟩

/-- Schedule where the child's mutex is free from the second poll onward. -/
def availLate : Nat → Bool := fun i => decide (1 ≤ i)

/-- Clock that stays at time 100 (no second boundary is crossed). -/
def clockStill : Nat → Nat := fun _ => 100

/-- Schedule where the child's mutex is never free. -/
def availNever : Nat → Bool := fun _ => false

/-- Clock whose first sample, 200, is already past the deadline. -/
def clockPast : Nat → Nat := fun _ => 200

end OwnedPtrExcl

namespace OwnedPtr

/-- Unfolding lemma for lookupR on a cons cell. -/
theorem lookupR_cons (p : Nat × ReaderSt) (rest : List (Nat × ReaderSt)) (id : Nat) :
    lookupR (p :: rest) id = if p.1 = id then some p.2 else lookupR rest id := rfl

/-- Unfolding lemma for updateR on a cons cell. -/
theorem updateR_cons (p : Nat × ReaderSt) (rest : List (Nat × ReaderSt)) (id : Nat)
    (f : ReaderSt → ReaderSt) :
    updateR (p :: rest) id f = (if p.1 = id then (p.1, f p.2) else p) :: updateR rest id f := by
  by_cases h : p.1 = id <;> simp [updateR, h]

/-- Unfolding lemma for eraseR on a cons cell. -/
theorem eraseR_cons (p : Nat × ReaderSt) (rest : List (Nat × ReaderSt)) (id : Nat) :
    eraseR (p :: rest) id = if p.1 = id then eraseR rest id else p :: eraseR rest id := by
  by_cases h : p.1 = id <;> simp [eraseR, List.filter_cons, h]

/-- Looking up the updated address yields the mapped object. -/
theorem lookupR_update_self (rs : List (Nat × ReaderSt)) (id : Nat) (f : ReaderSt → ReaderSt) :
    lookupR (updateR rs id f) id = (lookupR rs id).map f := by
  induction rs with
  | nil => rfl
  | cons p rest ih =>
    rw [updateR_cons]
    by_cases h : p.1 = id
    · simp [lookupR_cons, h]
    · simpa [lookupR_cons, h] using ih

/-- Looking up another address is unaffected by an update. -/
theorem lookupR_update_ne (rs : List (Nat × ReaderSt)) (id id' : Nat) (f : ReaderSt → ReaderSt)
    (h : id' ≠ id) :
    lookupR (updateR rs id f) id' = lookupR rs id' := by
  induction rs with
  | nil => rfl
  | cons p rest ih =>
    rw [updateR_cons]
    by_cases h1 : p.1 = id
    · simpa [lookupR_cons, h1, Ne.symm h] using ih
    · by_cases h2 : p.1 = id'
      · simp [lookupR_cons, h1, h2, h]
      · simpa [lookupR_cons, h1, h2] using ih

/-- Lookup after erasing an address. -/
theorem lookupR_erase (rs : List (Nat × ReaderSt)) (id id' : Nat) :
    lookupR (eraseR rs id) id' = if id' = id then none else lookupR rs id' := by
  induction rs with
  | nil => simp [eraseR, lookupR]
  | cons p rest ih =>
    rw [eraseR_cons]
    by_cases h1 : p.1 = id
    · rw [if_pos h1, ih]
      by_cases h2 : id' = id
      · simp [h2]
      · have h3 : p.1 ≠ id' := fun e => h2 (e.symm.trans h1)
        simp [lookupR_cons, h2, h3]
    · rw [if_neg h1]
      by_cases h2 : p.1 = id'
      · have h3 : ¬ id' = id := fun e => h1 (h2.trans e)
        simp [lookupR_cons, h2, h3]
      · simpa [lookupR_cons, h2] using ih

/-- A nothing lookup means the address is not a key. -/
theorem lookupR_eq_none_iff (rs : List (Nat × ReaderSt)) (id : Nat) :
    lookupR rs id = none ↔ id ∉ rs.map Prod.fst := by
  induction rs with
  | nil => simp [lookupR]
  | cons p rest ih =>
    by_cases h : p.1 = id
    · simp [lookupR_cons, h]
    · have h' : ¬ id = p.1 := fun e => h e.symm
      rw [lookupR_cons, if_neg h]
      simp only [List.map_cons, List.mem_cons, not_or]
      rw [ih]
      exact Iff.intro (fun hn => ⟨h', hn⟩) (fun hn => hn.2)

/-- Updating an absent address changes nothing. -/
theorem updateR_eq_of_not_mem (rs : List (Nat × ReaderSt)) (id : Nat) (f : ReaderSt → ReaderSt)
    (h : id ∉ rs.map Prod.fst) : updateR rs id f = rs := by
  induction rs with
  | nil => rfl
  | cons p rest ih =>
    simp only [List.map_cons, List.mem_cons] at h
    push_neg at h
    rw [updateR_cons, if_neg (fun e => h.1 e.symm), ih h.2]

/-- Updates do not change the key list. -/
theorem keys_update (rs : List (Nat × ReaderSt)) (id : Nat) (f : ReaderSt → ReaderSt) :
    (updateR rs id f).map Prod.fst = rs.map Prod.fst := by
  induction rs with
  | nil => rfl
  | cons p rest ih =>
    rw [updateR_cons]
    by_cases h : p.1 = id <;> simp [h, ih]

/-- Erasure keeps a sublist of the keys. -/
theorem keys_erase_sublist (rs : List (Nat × ReaderSt)) (id : Nat) :
    ((eraseR rs id).map Prod.fst).Sublist (rs.map Prod.fst) :=
  (List.filter_sublist rs).map Prod.fst

/-- Unfolding lemma for countParent on a cons cell. -/
theorem countParent_cons (p : Nat × ReaderSt) (rs : List (Nat × ReaderSt)) :
    countParent (p :: rs) = (if p.2.parent then 1 else 0) + countParent rs := by
  by_cases h : p.2.parent <;> simp [countParent, List.filter_cons, h, Nat.add_comm]

/-- An update that does not change any parent_ field keeps the count. -/
theorem countParent_update_keep (rs : List (Nat × ReaderSt)) (id : Nat)
    (f : ReaderSt → ReaderSt) (h : ∀ r, (f r).parent = r.parent) :
    countParent (updateR rs id f) = countParent rs := by
  induction rs with
  | nil => rfl
  | cons p rest ih =>
    rw [updateR_cons]
    by_cases h1 : p.1 = id <;> simp [countParent_cons, h1, h, ih]

/-- Setting parent_ of a previously unattached reader raises the count by one. -/
theorem countParent_update_set_parent (rs : List (Nat × ReaderSt)) (id : Nat)
    (f : ReaderSt → ReaderSt) (r : ReaderSt)
    (nodup : (rs.map Prod.fst).Nodup) (hr : lookupR rs id = some r)
    (hp : r.parent = false) (hf : ∀ x, (f x).parent = true) :
    countParent (updateR rs id f) = countParent rs + 1 := by
  induction rs with
  | nil => cases hr
  | cons p rest ih =>
    simp only [List.map_cons, List.nodup_cons] at nodup
    rw [updateR_cons]
    by_cases h1 : p.1 = id
    · have hr' : p.2 = r := by
        have := hr
        rw [lookupR_cons, if_pos h1] at this
        exact Option.some.inj this
      rw [if_pos h1, updateR_eq_of_not_mem rest id f (h1 ▸ nodup.1),
        countParent_cons, countParent_cons, hf, hr', hp]
      simp [Nat.add_comm]
    · have hr' : lookupR rest id = some r := by
        have := hr
        rwa [lookupR_cons, if_neg h1] at this
      rw [if_neg h1, countParent_cons, countParent_cons, ih nodup.2 hr']
      omega

/-- A reader with parent_ set makes the count positive. -/
theorem countParent_pos (rs : List (Nat × ReaderSt)) (id : Nat) (r : ReaderSt)
    (hr : lookupR rs id = some r) (hp : r.parent = true) : 0 < countParent rs := by
  induction rs with
  | nil => cases hr
  | cons p rest ih =>
    rw [countParent_cons]
    by_cases h1 : p.1 = id
    · have hr' : p.2 = r := by
        have := hr
        rw [lookupR_cons, if_pos h1] at this
        exact Option.some.inj this
      rw [hr', hp]
      simp
    · have hr' : lookupR rest id = some r := by
        have := hr
        rwa [lookupR_cons, if_neg h1] at this
      have := ih hr'
      omega

/-- Erasing an absent address changes nothing. -/
theorem eraseR_eq_of_not_mem (rs : List (Nat × ReaderSt)) (id : Nat)
    (h : id ∉ rs.map Prod.fst) : eraseR rs id = rs := by
  induction rs with
  | nil => rfl
  | cons p rest ih =>
    simp only [List.map_cons, List.mem_cons] at h
    push_neg at h
    rw [eraseR_cons, if_neg (fun e => h.1 e.symm), ih h.2]

/-- Erasing a reader with parent_ set lowers the count by one. -/
theorem countParent_erase_parent (rs : List (Nat × ReaderSt)) (id : Nat) (r : ReaderSt)
    (nodup : (rs.map Prod.fst).Nodup) (hr : lookupR rs id = some r)
    (hp : r.parent = true) :
    countParent rs = countParent (eraseR rs id) + 1 := by
  induction rs with
  | nil => cases hr
  | cons p rest ih =>
    simp only [List.map_cons, List.nodup_cons] at nodup
    by_cases h1 : p.1 = id
    · have hr' : p.2 = r := by
        have := hr
        rw [lookupR_cons, if_pos h1] at this
        exact Option.some.inj this
      rw [eraseR_cons, if_pos h1, eraseR_eq_of_not_mem rest id (h1 ▸ nodup.1),
        countParent_cons, hr', hp]
      simp [Nat.add_comm]
    · have hr' : lookupR rest id = some r := by
        have := hr
        rwa [lookupR_cons, if_neg h1] at this
      rw [eraseR_cons, if_neg h1, countParent_cons, countParent_cons, ih nodup.2 hr']
      omega

/-- Erasing a reader with parent_ clear keeps the count. -/
theorem countParent_erase_nonparent (rs : List (Nat × ReaderSt)) (id : Nat) (r : ReaderSt)
    (nodup : (rs.map Prod.fst).Nodup) (hr : lookupR rs id = some r)
    (hp : r.parent = false) :
    countParent (eraseR rs id) = countParent rs := by
  induction rs with
  | nil => cases hr
  | cons p rest ih =>
    simp only [List.map_cons, List.nodup_cons] at nodup
    by_cases h1 : p.1 = id
    · have hr' : p.2 = r := by
        have := hr
        rw [lookupR_cons, if_pos h1] at this
        exact Option.some.inj this
      rw [eraseR_cons, if_pos h1, eraseR_eq_of_not_mem rest id (h1 ▸ nodup.1),
        countParent_cons, hr', hp]
      simp
    · have hr' : lookupR rest id = some r := by
        have := hr
        rwa [lookupR_cons, if_neg h1] at this
      rw [eraseR_cons, if_neg h1, countParent_cons, countParent_cons, ih nodup.2 hr']

end OwnedPtr

namespace OwnedPtr

/-- Membership form of List.contains on addresses. -/
theorem contains_iff (cs : List Nat) (x : Nat) : cs.contains x = true ↔ x ∈ cs := by
  simp

/-- Lookup through the conditional registry-wide map used by reset and the
owner destructor. -/
theorem lookupR_condMap (g : ReaderSt → ReaderSt) (cs : List Nat)
    (rs : List (Nat × ReaderSt)) (id : Nat) :
    lookupR (rs.map fun p => if cs.contains p.1 then (p.1, g p.2) else p) id
      = (lookupR rs id).map fun r => if cs.contains id then g r else r := by
  induction rs with
  | nil => rfl
  | cons p rest ih =>
    by_cases h : p.1 = id
    · subst h
      by_cases hc : p.1 ∈ cs
      · simp [lookupR_cons, hc]
      · simp [lookupR_cons, hc]
    · by_cases hc : p.1 ∈ cs
      · simpa [lookupR_cons, h, hc] using ih
      · simpa [lookupR_cons, h, hc] using ih

/-- The conditional registry-wide map keeps the key list. -/
theorem keys_condMap (g : ReaderSt → ReaderSt) (cs : List Nat)
    (rs : List (Nat × ReaderSt)) :
    ((rs.map fun p => if cs.contains p.1 then (p.1, g p.2) else p).map Prod.fst)
      = rs.map Prod.fst := by
  induction rs with
  | nil => rfl
  | cons p rest ih =>
    simp only [List.map_cons]
    rw [ih]
    congr 1
    by_cases hm : p.1 ∈ cs <;> simp [hm]

/-- A conditional registry-wide map that does not change parent_ keeps the
count. -/
theorem countParent_condMap_keep (g : ReaderSt → ReaderSt) (cs : List Nat)
    (rs : List (Nat × ReaderSt)) (h : ∀ r, (g r).parent = r.parent) :
    countParent (rs.map fun p => if cs.contains p.1 then (p.1, g p.2) else p)
      = countParent rs := by
  induction rs with
  | nil => rfl
  | cons p rest ih =>
    simp only [List.map_cons]
    rw [countParent_cons, countParent_cons, ih]
    congr 1
    by_cases hm : p.1 ∈ cs <;> simp [hm, h]

/-- The state invariant of the shared variant, preserved by every completed
call.  Note that registry membership and the parent_ flag need NOT coincide
(the move constructor breaks both inclusions); only the counts agree. -/
structure Inv (s : SharedSys) : Prop where
  keys : (s.readers.map Prod.fst).Nodup
  count_eq : s.ownerLive = true → s.children.length = countParent s.readers
  synced : s.ownerLive = true → ∀ id, id ∈ s.children → ∀ r, lookupR s.readers id = some r →
    r.parent = true → r.value = s.value
  detached : ∀ id r, lookupR s.readers id = some r → r.parent = false → id ∉ s.children →
    r.value = none
  dead : s.ownerLive = false → ∀ id r, lookupR s.readers id = some r → r.parent = false →
    r.value = none

/-- A fresh default-constructed reader preserves the invariant. -/
theorem inv_newR (s s' : SharedSys) (id : Nat) (hinv : Inv s) (h : newROp s id = some s') :
    Inv s' := by
  unfold newROp at h
  split at h
  · injection h with h
    subst h
    rename_i hc
    obtain ⟨hnone, hnotmem⟩ : lookupR s.readers id = none ∧ id ∉ s.children := by
      simpa [Bool.and_eq_true, Option.isNone_iff_eq_none] using hc
    refine ⟨?_, ?_, ?_, ?_, ?_⟩
    · simp only [List.map_cons]
      exact List.nodup_cons.mpr ⟨(lookupR_eq_none_iff _ _).mp hnone, hinv.keys⟩
    · intro hl
      rw [countParent_cons]
      simpa [ReaderSt.init] using hinv.count_eq hl
    · intro hl id' hmem r hr hp
      rw [lookupR_cons] at hr
      by_cases he : id = id'
      · exact absurd (he ▸ hmem) hnotmem
      · rw [if_neg he] at hr
        exact hinv.synced hl id' hmem r hr hp
    · intro id' r hr hp hnm
      rw [lookupR_cons] at hr
      by_cases he : id = id'
      · rw [if_pos he] at hr
        injection hr with hr
        rw [← hr]
        rfl
      · rw [if_neg he] at hr
        exact hinv.detached id' r hr hp hnm
    · intro hd id' r hr hp
      rw [lookupR_cons] at hr
      by_cases he : id = id'
      · rw [if_pos he] at hr
        injection hr with hr
        rw [← hr]
        rfl
      · rw [if_neg he] at hr
        exact hinv.dead hd id' r hr hp
  · cases h

/-- A completed get/attach preserves the invariant. -/
theorem inv_attach (s s' : SharedSys) (id : Nat) (hinv : Inv s) (h : attachOp s id = some s') :
    Inv s' := by
  unfold attachOp at h
  split at h
  · cases h
  · rename_i r hr
    split at h
    · rename_i hc
      injection h with h
      subst h
      obtain ⟨hl, hp⟩ : s.ownerLive = true ∧ r.parent = false := by
        simpa [Bool.and_eq_true, Bool.not_eq_true'] using hc
      refine ⟨?_, ?_, ?_, ?_, ?_⟩
      · rw [keys_update]
        exact hinv.keys
      · intro _
        rw [List.length_append, countParent_update_set_parent s.readers id _ r hinv.keys hr hp
          (fun x => rfl), hinv.count_eq hl]
        rfl
      · intro _ id' hmem r' hr' hp'
        by_cases he : id' = id
        · subst he
          rw [lookupR_update_self, hr] at hr'
          injection hr' with hr'
          rw [← hr']
        · rw [lookupR_update_ne s.readers id id' _ he] at hr'
          have hmem' : id' ∈ s.children := by
            rcases List.mem_append.mp hmem with hm | hm
            · exact hm
            · exact absurd (List.mem_singleton.mp hm) he
          exact hinv.synced hl id' hmem' r' hr' hp'
      · intro id' r' hr' hp' hnm
        by_cases he : id' = id
        · subst he
          rw [lookupR_update_self, hr] at hr'
          injection hr' with hr'
          rw [← hr'] at hp'
          cases hp'
        · rw [lookupR_update_ne s.readers id id' _ he] at hr'
          exact hinv.detached id' r' hr' hp' (fun hm => hnm (List.mem_append_left _ hm))
      · intro hd
        rw [hl] at hd
        cases hd
    · cases h

end OwnedPtr

namespace OwnedPtr

/-- What a completed default construction guarantees. -/
theorem newROp_spec (s s' : SharedSys) (id : Nat) (h : newROp s id = some s') :
    lookupR s.readers id = none ∧ id ∉ s.children ∧
      s' = { s with readers := (id, ReaderSt.init) :: s.readers } := by
  unfold newROp at h
  split at h
  · rename_i hc
    injection h with h
    obtain ⟨h1, h2⟩ : lookupR s.readers id = none ∧ id ∉ s.children := by
      simpa [Bool.and_eq_true, Option.isNone_iff_eq_none] using hc
    exact ⟨h1, h2, h.symm⟩
  · cases h

/-- A completed reader destruction preserves the invariant. -/
theorem inv_dtorR (s s' : SharedSys) (id : Nat) (hinv : Inv s) (h : dtorROp s id = some s') :
    Inv s' := by
  unfold dtorROp at h
  split at h
  · cases h
  · rename_i r hr
    split at h
    · rename_i hp
      split at h
      · rename_i hl
        cases hrm : removeOp s id with
        | none => rw [hrm] at h; cases h
        | some s1 =>
          rw [hrm] at h
          injection h with h
          subst h
          unfold removeOp at hrm
          split at hrm
          · rename_i hch
            injection hrm with hrm
            subst hrm
            have h0 := hinv.count_eq hl
            rw [hch] at h0
            have h1 := countParent_pos s.readers id r hr hp
            rw [← h0] at h1
            cases h1
          · rename_i c rest hch
            split at hrm
            · rename_i hcid
              subst hcid
              split at hrm
              · rename_i rc hrc
                split at hrm
                · injection hrm with hrm
                  subst hrm
                  refine ⟨?_, ?_, ?_, ?_, ?_⟩
                  · exact (keys_erase_sublist s.readers c).nodup hinv.keys
                  · intro _
                    dsimp only
                    have h0 := hinv.count_eq hl
                    rw [hch] at h0
                    have h1 := countParent_erase_parent s.readers c r hinv.keys hr hp
                    simp only [List.length_cons] at h0
                    omega
                  · intro _ id' hmem' r' hr' hp'
                    rw [lookupR_erase] at hr'
                    by_cases he : id' = c
                    · rw [if_pos he] at hr'
                      cases hr'
                    · rw [if_neg he] at hr'
                      exact hinv.synced hl id' (hch ▸ List.mem_cons_of_mem _ hmem') r' hr' hp'
                  · intro id' r' hr' hp' hnm
                    rw [lookupR_erase] at hr'
                    by_cases he : id' = c
                    · rw [if_pos he] at hr'
                      cases hr'
                    · rw [if_neg he] at hr'
                      refine hinv.detached id' r' hr' hp' ?_
                      rw [hch]
                      intro hm
                      rcases List.mem_cons.mp hm with hm1 | hm2
                      · exact he hm1
                      · exact hnm hm2
                  · intro hd
                    rw [hl] at hd
                    cases hd
                · cases hrm
              · cases hrm
            · cases hrm
      · cases h
    · rename_i hp
      injection h with h
      subst h
      have hp' : r.parent = false := by
        cases hx : r.parent
        · rfl
        · rw [hx] at hp; cases hp rfl
      refine ⟨?_, ?_, ?_, ?_, ?_⟩
      · exact (keys_erase_sublist s.readers id).nodup hinv.keys
      · intro hl
        rw [countParent_erase_nonparent s.readers id r hinv.keys hr hp']
        exact hinv.count_eq hl
      · intro hl id' hmem' r' hr' hpp
        rw [lookupR_erase] at hr'
        by_cases he : id' = id
        · rw [if_pos he] at hr'
          cases hr'
        · rw [if_neg he] at hr'
          exact hinv.synced hl id' hmem' r' hr' hpp
      · intro id' r' hr' hpp hnm
        rw [lookupR_erase] at hr'
        by_cases he : id' = id
        · rw [if_pos he] at hr'
          cases hr'
        · rw [if_neg he] at hr'
          exact hinv.detached id' r' hr' hpp hnm
      · intro hd id' r' hr' hpp
        rw [lookupR_erase] at hr'
        by_cases he : id' = id
        · rw [if_pos he] at hr'
          cases hr'
        · rw [if_neg he] at hr'
          exact hinv.dead hd id' r' hr' hpp

end OwnedPtr

namespace OwnedPtr

/-- A completed registry replacement preserves the invariant, given that the
outgoing reader has parent_ set and the incoming reader is a fresh default
object. -/
theorem inv_replace (s s' : SharedSys) (src newId : Nat) (hinv : Inv s)
    (rs rn : ReaderSt)
    (hsrc : lookupR s.readers src = some rs) (hsp : rs.parent = true)
    (hnewr : lookupR s.readers newId = some rn) (hnp : rn.parent = false)
    (h : replaceOp s src newId = some s') : Inv s' := by
  unfold replaceOp at h
  split at h
  · rename_i hch
    injection h with h
    subst h
    exact hinv
  · rename_i c rest hch
    split at h
    · rename_i hcid
      subst hcid
      injection h with h
      subst h
      refine ⟨hinv.keys, ?_, ?_, ?_, ?_⟩
      · intro hl
        have h0 := hinv.count_eq hl
        rw [hch] at h0
        simpa using h0
      · intro hl id' hmem' r' hr' hp'
        rcases List.mem_cons.mp hmem' with hm1 | hm2
        · subst hm1
          rw [hnewr] at hr'
          injection hr' with hr'
          rw [← hr'] at hp'
          rw [hnp] at hp'
          cases hp'
        · exact hinv.synced hl id' (hch ▸ List.mem_cons_of_mem _ hm2) r' hr' hp'
      · intro id' r' hr' hp' hnm
        refine hinv.detached id' r' hr' hp' ?_
        rw [hch]
        intro hm
        rcases List.mem_cons.mp hm with hm1 | hm2
        · subst hm1
          rw [hsrc] at hr'
          injection hr' with hr'
          rw [← hr'] at hp'
          rw [hsp] at hp'
          cases hp'
        · exact hnm (List.mem_cons_of_mem _ hm2)
      · exact hinv.dead
    · cases h

/-- A completed copy construction preserves the invariant. -/
theorem inv_copy (s s' : SharedSys) (src newId : Nat) (hinv : Inv s)
    (h : copyOp s src newId = some s') : Inv s' := by
  unfold copyOp at h
  split at h
  · cases h
  · rename_i rs hsrc
    cases hn : newROp s newId with
    | none => rw [hn] at h; cases h
    | some s0 =>
      rw [hn] at h
      rw [Option.some_bind] at h
      have hinv0 : Inv s0 := inv_newR s s0 newId hinv hn
      split at h
      · exact inv_attach s0 s' newId hinv0 h
      · injection h with h
        subst h
        exact hinv0

/-- A completed move construction preserves the invariant. -/
theorem inv_move (s s' : SharedSys) (src newId : Nat) (hinv : Inv s)
    (h : moveOp s src newId = some s') : Inv s' := by
  unfold moveOp at h
  split at h
  · cases h
  · rename_i rs hsrc
    cases hn : newROp s newId with
    | none => rw [hn] at h; cases h
    | some s0 =>
      rw [hn] at h
      rw [Option.some_bind] at h
      have hinv0 : Inv s0 := inv_newR s s0 newId hinv hn
      obtain ⟨hnone, hnmem, hs0⟩ := newROp_spec s s0 newId hn
      split at h
      · rename_i hsp
        split at h
        · have hne : newId ≠ src := by
            intro he
            rw [he] at hnone
            rw [hnone] at hsrc
            cases hsrc
          have hsrc0 : lookupR s0.readers src = some rs := by
            rw [hs0, lookupR_cons, if_neg hne]
            exact hsrc
          have hnew0 : lookupR s0.readers newId = some ReaderSt.init := by
            rw [hs0, lookupR_cons, if_pos rfl]
          exact inv_replace s0 s' src newId hinv0 rs ReaderSt.init hsrc0 hsp hnew0 rfl h
        · cases h
      · injection h with h
        subst h
        exact hinv0

/-- A completed reset preserves the invariant. -/
theorem inv_reset (s s' : SharedSys) (v : Option Nat) (hinv : Inv s)
    (h : resetOp s v = some s') : Inv s' := by
  unfold resetOp at h
  split at h
  · rename_i hg
    split at h
    · injection h with h
      subst h
      have hl : s.ownerLive = true := by
        simp only [Bool.and_eq_true] at hg
        exact hg.1
      refine ⟨?_, ?_, ?_, ?_, ?_⟩
      · show ((scanned s v).readers.map Prod.fst).Nodup
        unfold scanned
        rw [keys_condMap]
        exact hinv.keys
      · intro _
        show s.children.length = countParent (scanned s v).readers
        unfold scanned
        rw [countParent_condMap_keep (setValue v) s.children s.readers (fun r => rfl)]
        exact hinv.count_eq hl
      · intro _ id' hmem' r' hr' hp'
        show r'.value = v
        unfold scanned at hr'
        rw [lookupR_condMap] at hr'
        cases hx : lookupR s.readers id' with
        | none => rw [hx] at hr'; cases hr'
        | some r0 =>
          rw [hx] at hr'
          injection hr' with hr'
          rw [(contains_iff s.children id').mpr hmem'] at hr'
          rw [← hr']
          simp [setValue]
      · intro id' r' hr' hp' hnm
        unfold scanned at hr'
        rw [lookupR_condMap] at hr'
        cases hx : lookupR s.readers id' with
        | none => rw [hx] at hr'; cases hr'
        | some r0 =>
          rw [hx] at hr'
          injection hr' with hr'
          have hcf : s.children.contains id' = false := by
            cases hy : s.children.contains id'
            · rfl
            · exact absurd ((contains_iff _ _).mp hy) hnm
          rw [hcf] at hr'
          simp only [Bool.false_eq_true, if_false] at hr'
          rw [← hr'] at hp' ⊢
          exact hinv.detached id' r0 hx hp' hnm
      · intro hd
        have hd' : s.ownerLive = false := hd
        rw [hl] at hd'
        cases hd'
    · cases h
  · cases h

/-- A completed owner destruction preserves the invariant. -/
theorem inv_dtorO (s s' : SharedSys) (hinv : Inv s) (h : dtorOOp s = some s') : Inv s' := by
  unfold dtorOOp at h
  split at h
  · injection h with h
    subst h
    refine ⟨?_, ?_, ?_, ?_, ?_⟩
    · show ((s.readers.map fun p =>
        if s.children.contains p.1 then (p.1, killReader p.2) else p).map Prod.fst).Nodup
      rw [keys_condMap]
      exact hinv.keys
    · intro hl
      cases hl
    · intro hl
      cases hl
    · intro id' r' hr' hp' hnm
      rw [lookupR_condMap] at hr'
      cases hx : lookupR s.readers id' with
      | none => rw [hx] at hr'; cases hr'
      | some r0 =>
        rw [hx] at hr'
        injection hr' with hr'
        have hcf : s.children.contains id' = false := by
          cases hy : s.children.contains id'
          · rfl
          · exact absurd ((contains_iff _ _).mp hy) hnm
        rw [hcf] at hr'
        simp only [Bool.false_eq_true, if_false] at hr'
        rw [← hr'] at hp' ⊢
        exact hinv.detached id' r0 hx hp' hnm
    · intro _ id' r' hr' hp'
      rw [lookupR_condMap] at hr'
      cases hx : lookupR s.readers id' with
      | none => rw [hx] at hr'; cases hr'
      | some r0 =>
        rw [hx] at hr'
        injection hr' with hr'
        by_cases hm : id' ∈ s.children
        · rw [(contains_iff s.children id').mpr hm] at hr'
          rw [← hr']
          simp [killReader]
        · have hcf : s.children.contains id' = false := by
            cases hy : s.children.contains id'
            · rfl
            · exact absurd ((contains_iff _ _).mp hy) hm
          rw [hcf] at hr'
          simp only [Bool.false_eq_true, if_false] at hr'
          rw [← hr'] at hp' ⊢
          exact hinv.detached id' r0 hx hp' hm
  · cases h

/-- An update that changes neither value_ nor parent_ preserves the
invariant. -/
theorem inv_update_keep (s : SharedSys) (id : Nat) (f : ReaderSt → ReaderSt)
    (hf1 : ∀ r, (f r).value = r.value) (hf2 : ∀ r, (f r).parent = r.parent)
    (hinv : Inv s) : Inv { s with readers := updateR s.readers id f } := by
  refine ⟨?_, ?_, ?_, ?_, ?_⟩
  · show ((updateR s.readers id f).map Prod.fst).Nodup
    rw [keys_update]
    exact hinv.keys
  · intro hl
    show s.children.length = countParent (updateR s.readers id f)
    rw [countParent_update_keep _ _ _ hf2]
    exact hinv.count_eq hl
  · intro hl id' hmem' r' hr' hp'
    by_cases he : id' = id
    · subst he
      rw [lookupR_update_self] at hr'
      cases hx : lookupR s.readers id' with
      | none => rw [hx] at hr'; cases hr'
      | some r0 =>
        rw [hx] at hr'
        injection hr' with hr'
        show r'.value = s.value
        rw [← hr', hf1]
        refine hinv.synced hl id' hmem' r0 hx ?_
        rw [← hf2 r0, hr']
        exact hp'
    · rw [lookupR_update_ne _ _ _ _ he] at hr'
      exact hinv.synced hl id' hmem' r' hr' hp'
  · intro id' r' hr' hp' hnm
    by_cases he : id' = id
    · subst he
      rw [lookupR_update_self] at hr'
      cases hx : lookupR s.readers id' with
      | none => rw [hx] at hr'; cases hr'
      | some r0 =>
        rw [hx] at hr'
        injection hr' with hr'
        rw [← hr', hf1]
        refine hinv.detached id' r0 hx ?_ hnm
        rw [← hf2 r0, hr']
        exact hp'
    · rw [lookupR_update_ne _ _ _ _ he] at hr'
      exact hinv.detached id' r' hr' hp' hnm
  · intro hd id' r' hr' hp'
    by_cases he : id' = id
    · subst he
      rw [lookupR_update_self] at hr'
      cases hx : lookupR s.readers id' with
      | none => rw [hx] at hr'; cases hr'
      | some r0 =>
        rw [hx] at hr'
        injection hr' with hr'
        rw [← hr', hf1]
        refine hinv.dead hd id' r0 hx ?_
        rw [← hf2 r0, hr']
        exact hp'
    · rw [lookupR_update_ne _ _ _ _ he] at hr'
      exact hinv.dead hd id' r' hr' hp'

/-- Every completed call preserves the invariant. -/
theorem inv_step (s s' : SharedSys) (op : Op) (hinv : Inv s) (h : step s op = some s') :
    Inv s' := by
  cases op with
  | newR id => exact inv_newR s s' id hinv h
  | attach id => exact inv_attach s s' id hinv h
  | copy a b => exact inv_copy s s' a b hinv h
  | move a b => exact inv_move s s' a b hinv h
  | dtorR id => exact inv_dtorR s s' id hinv h
  | reset v => exact inv_reset s s' v hinv h
  | dtorO => exact inv_dtorO s s' hinv h
  | lockR id =>
    simp only [step] at h
    split at h
    · injection h with h
      subst h
      exact inv_update_keep s id _ (fun r => rfl) (fun r => rfl) hinv
    · cases h
  | unlockR id =>
    simp only [step] at h
    split at h
    · injection h with h
      subst h
      exact inv_update_keep s id _ (fun r => rfl) (fun r => rfl) hinv
    · cases h

/-- A completed run preserves the invariant. -/
theorem inv_run (s s' : SharedSys) (ops : List Op) (hinv : Inv s) (h : run s ops = some s') :
    Inv s' := by
  induction ops generalizing s with
  | nil =>
    injection h with h
    subst h
    exact hinv
  | cons op rest ih =>
    unfold run at h
    cases hs1 : step s op with
    | none => rw [hs1] at h; cases h
    | some s1 =>
      rw [hs1] at h
      rw [Option.some_bind] at h
      exact ih s1 (inv_step s s1 op hinv hs1) h

/-- The freshly constructed owner satisfies the invariant. -/
theorem inv_init (v : Option Nat) : Inv (init v) := by
  refine ⟨?_, ?_, ?_, ?_, ?_⟩
  · exact List.nodup_nil
  · intro _
    rfl
  · intro _ id hmem
    cases hmem
  · intro id r hr
    cases hr
  · intro hd
    cases hd

/-- Every reachable state satisfies the invariant. -/
theorem reach_inv (s : SharedSys) (h : Reachable s) : Inv s := by
  obtain ⟨v, ops, hrun⟩ := h
  exact inv_run (init v) s ops (inv_init v) hrun

/-- Runs compose by list append. -/
theorem run_append (s : SharedSys) (l1 l2 : List Op) :
    run s (l1 ++ l2) = (run s l1).bind fun s1 => run s1 l2 := by
  induction l1 generalizing s with
  | nil => rfl
  | cons op rest ih =>
    show (step s op).bind (fun s1 => run s1 (rest ++ l2))
      = ((step s op).bind fun s1 => run s1 rest).bind fun s1 => run s1 l2
    cases step s op with
    | none => rfl
    | some s1 => exact ih s1

/-- Reachability is closed under completed steps. -/
theorem reachable_step (s s' : SharedSys) (op : Op) (h : Reachable s)
    (hstep : step s op = some s') : Reachable s' := by
  obtain ⟨v, ops, hrun⟩ := h
  refine ⟨v, ops ++ [op], ?_⟩
  rw [run_append, hrun]
  simp [run, hstep]

/-- Reachability is closed under completed runs. -/
theorem reachable_run (s s' : SharedSys) (ops : List Op) (h : Reachable s)
    (hrun : run s ops = some s') : Reachable s' := by
  obtain ⟨v, ops0, hrun0⟩ := h
  refine ⟨v, ops0 ++ ops, ?_⟩
  rw [run_append, hrun0]
  exact hrun

end OwnedPtr

namespace OwnedPtr

/-- Prepending a fresh default reader keeps every clear parent_ flag clear. -/
theorem parentClear_cons_init (s : SharedSys) (id2 id : Nat)
    (hP : ∀ r, lookupR s.readers id = some r → r.parent = false) :
    ∀ r', lookupR ((id2, ReaderSt.init) :: s.readers) id = some r' → r'.parent = false := by
  intro r' hr'
  rw [lookupR_cons] at hr'
  by_cases he : id2 = id
  · rw [if_pos he] at hr'
    injection hr' with hr'
    rw [← hr']
    rfl
  · rw [if_neg he] at hr'
    exact hP r' hr'

/-- After the owner is destroyed, every completed call keeps the owner
destroyed and keeps a reader address whose parent_ is clear (or free) in that
state. -/
theorem step_dead (s s' : SharedSys) (op : Op) (hd : s.ownerLive = false)
    (h : step s op = some s') :
    s'.ownerLive = false ∧
      ∀ id, (∀ r, lookupR s.readers id = some r → r.parent = false) →
        ∀ r', lookupR s'.readers id = some r' → r'.parent = false := by
  cases op with
  | newR id2 =>
    obtain ⟨h1, h2, hs⟩ := newROp_spec s s' id2 h
    subst hs
    exact ⟨hd, fun id hP => parentClear_cons_init s id2 id hP⟩
  | attach id2 =>
    exfalso
    simp only [step] at h
    unfold attachOp at h
    split at h
    · cases h
    · split at h
      · rename_i hc
        rw [hd] at hc
        simp at hc
      · cases h
  | copy a b =>
    simp only [step] at h
    unfold copyOp at h
    split at h
    · cases h
    · rename_i rs hsrc
      cases hn : newROp s b with
      | none => rw [hn] at h; cases h
      | some s0 =>
        rw [hn, Option.some_bind] at h
        obtain ⟨h1, h2, hs0⟩ := newROp_spec s s0 b hn
        split at h
        · exfalso
          unfold attachOp at h
          split at h
          · cases h
          · split at h
            · rename_i hc
              rw [hs0] at hc
              simp only at hc
              rw [hd] at hc
              simp at hc
            · cases h
        · injection h with h
          subst h
          rw [hs0]
          exact ⟨hd, fun id hP => parentClear_cons_init s b id hP⟩
  | move a b =>
    simp only [step] at h
    unfold moveOp at h
    split at h
    · cases h
    · rename_i rs hsrc
      cases hn : newROp s b with
      | none => rw [hn] at h; cases h
      | some s0 =>
        rw [hn, Option.some_bind] at h
        obtain ⟨h1, h2, hs0⟩ := newROp_spec s s0 b hn
        split at h
        · split at h
          · rename_i hl0
            exfalso
            rw [hs0] at hl0
            simp only at hl0
            rw [hd] at hl0
            cases hl0
          · cases h
        · injection h with h
          subst h
          rw [hs0]
          exact ⟨hd, fun id hP => parentClear_cons_init s b id hP⟩
  | dtorR id2 =>
    simp only [step] at h
    unfold dtorROp at h
    split at h
    · cases h
    · rename_i r hr
      split at h
      · split at h
        · rename_i hl
          rw [hd] at hl
          cases hl
        · cases h
      · injection h with h
        subst h
        refine ⟨hd, ?_⟩
        intro id hP r' hr'
        rw [lookupR_erase] at hr'
        by_cases he : id = id2
        · rw [if_pos he] at hr'
          cases hr'
        · rw [if_neg he] at hr'
          exact hP r' hr'
  | reset v =>
    exfalso
    simp only [step] at h
    unfold resetOp at h
    split at h
    · rename_i hc
      rw [hd] at hc
      simp at hc
    · cases h
  | dtorO =>
    exfalso
    simp only [step] at h
    unfold dtorOOp at h
    split at h
    · rename_i hc
      rw [hd] at hc
      simp at hc
    · cases h
  | lockR id2 =>
    simp only [step] at h
    split at h
    · injection h with h
      subst h
      refine ⟨hd, ?_⟩
      intro id hP r' hr'
      simp only [lockOp] at hr'
      show r'.parent = false
      by_cases he : id = id2
      · subst he
        rw [lookupR_update_self] at hr'
        cases hx : lookupR s.readers id with
        | none => rw [hx] at hr'; cases hr'
        | some r0 =>
          rw [hx] at hr'
          injection hr' with hr'
          rw [← hr']
          exact hP r0 hx
      · rw [lookupR_update_ne _ _ _ _ he] at hr'
        exact hP r' hr'
    · cases h
  | unlockR id2 =>
    simp only [step] at h
    split at h
    · injection h with h
      subst h
      refine ⟨hd, ?_⟩
      intro id hP r' hr'
      simp only [unlockOp] at hr'
      show r'.parent = false
      by_cases he : id = id2
      · subst he
        rw [lookupR_update_self] at hr'
        cases hx : lookupR s.readers id with
        | none => rw [hx] at hr'; cases hr'
        | some r0 =>
          rw [hx] at hr'
          injection hr' with hr'
          rw [← hr']
          exact hP r0 hx
      · rw [lookupR_update_ne _ _ _ _ he] at hr'
        exact hP r' hr'
    · cases h

/-- Run form of step_dead. -/
theorem run_dead (s s' : SharedSys) (ops : List Op) (hd : s.ownerLive = false)
    (h : run s ops = some s') :
    s'.ownerLive = false ∧
      ∀ id, (∀ r, lookupR s.readers id = some r → r.parent = false) →
        ∀ r', lookupR s'.readers id = some r' → r'.parent = false := by
  induction ops generalizing s with
  | nil =>
    injection h with h
    subst h
    exact ⟨hd, fun id hP => hP⟩
  | cons op rest ih =>
    unfold run at h
    cases hs1 : step s op with
    | none => rw [hs1] at h; cases h
    | some s1 =>
      rw [hs1, Option.some_bind] at h
      obtain ⟨hd1, hstep⟩ := step_dead s s1 op hd hs1
      obtain ⟨hd2, hrun⟩ := ih s1 hd1 h
      exact ⟨hd2, fun id hP => hrun id (hstep id hP)⟩

end OwnedPtr

namespace OwnedPtr

/-- When neither exit condition holds, the remove_ loop makes no progress at
any fuel. -/
theorem removeFuel_stuck (s : SharedSys) (id : Nat)
    (h : ¬ (s.children = [] ∨ (s.children.head? = some id ∧ lockedOf s id ≠ none))) :
    ∀ n, removeFuel s id n = none := by
  intro n
  induction n with
  | zero => rfl
  | succ n ih =>
    unfold removeFuel
    split
    · rename_i hch
      exact absurd (Or.inl hch) h
    · rename_i c rest hch
      split
      · rename_i hc
        subst hc
        split
        · rename_i rc hx
          split
          · rename_i hl
            exfalso
            apply h
            refine Or.inr ⟨?_, ?_⟩
            · rw [hch]
              rfl
            · have hlk : lockedOf s c = rc.locked := by
                unfold lockedOf
                rw [hx]
              rw [hlk]
              simpa using hl
          · exact ih
        · rfl
      · exact ih

/-- Exact termination condition of the shared variant's remove_ search loop. -/
theorem removeTerminates_iff (s : SharedSys) (id : Nat) :
    RemoveTerminates s id ↔
      s.children = [] ∨ (s.children.head? = some id ∧ lockedOf s id ≠ none) := by
  constructor
  · intro ht
    by_contra hnot
    obtain ⟨n, s', hn⟩ := ht
    rw [removeFuel_stuck s id hnot n] at hn
    cases hn
  · intro hc
    rcases hc with hch | ⟨hh, hl⟩
    · refine ⟨1, s, ?_⟩
      unfold removeFuel
      rw [hch]
    · cases hch : s.children with
      | nil =>
        rw [hch] at hh
        cases hh
      | cons c rest =>
        rw [hch] at hh
        have hcid : c = id := by simpa using hh
        subst hcid
        cases hx : lookupR s.readers c with
        | none =>
          exfalso
          apply hl
          unfold lockedOf
          rw [hx]
        | some rc =>
          have hlr : rc.locked ≠ none := by
            intro he
            apply hl
            unfold lockedOf
            rw [hx]
            exact he
          refine ⟨1, { s with children := rest }, ?_⟩
          unfold removeFuel
          rw [hch]
          simp [hx, hlr]

/-- When neither exit condition holds, the replace_ loop makes no progress at
any fuel. -/
theorem replaceFuel_stuck (s : SharedSys) (oldId newId : Nat)
    (h : ¬ (s.children = [] ∨ s.children.head? = some oldId)) :
    ∀ n, replaceFuel s oldId newId n = none := by
  intro n
  induction n with
  | zero => rfl
  | succ n ih =>
    unfold replaceFuel
    split
    · rename_i hch
      exact absurd (Or.inl hch) h
    · rename_i c rest hch
      split
      · rename_i hc
        exfalso
        apply h
        refine Or.inr ?_
        rw [hch, hc]
        rfl
      · exact ih

/-- Exact termination condition of the shared variant's replace_ search
loop. -/
theorem replaceTerminates_iff (s : SharedSys) (oldId newId : Nat) :
    ReplaceTerminates s oldId newId ↔ s.children = [] ∨ s.children.head? = some oldId := by
  constructor
  · intro ht
    by_contra hnot
    obtain ⟨n, s', hn⟩ := ht
    rw [replaceFuel_stuck s oldId newId hnot n] at hn
    cases hn
  · intro hc
    rcases hc with hch | hh
    · refine ⟨1, s, ?_⟩
      unfold replaceFuel
      rw [hch]
    · cases hch : s.children with
      | nil =>
        rw [hch] at hh
        cases hh
      | cons c rest =>
        rw [hch] at hh
        have hcid : c = oldId := by simpa using hh
        subst hcid
        refine ⟨1, { s with children := newId :: rest }, ?_⟩
        unfold replaceFuel
        rw [hch]
        simp

end OwnedPtr

namespace OwnedPtrExcl

/-- When neither exit condition holds, the exclusive variant's remove_ loop
makes no progress at any fuel. -/
theorem exclRemoveFuel_stuck (s : ExclSys) (id : Nat)
    (h : ¬ (s.children = [] ∨ s.children.head? = some id)) :
    ∀ n, exclRemoveFuel s id n = none := by
  intro n
  induction n with
  | zero => rfl
  | succ n ih =>
    unfold exclRemoveFuel
    split
    · rename_i hch
      exact absurd (Or.inl hch) h
    · rename_i c rest hch
      split
      · rename_i hc
        exfalso
        apply h
        refine Or.inr ?_
        rw [hch, hc]
        rfl
      · exact ih

/-- Exact termination condition of the exclusive variant's remove_ search
loop. -/
theorem exclRemoveTerminates_iff (s : ExclSys) (id : Nat) :
    ExclRemoveTerminates s id ↔ s.children = [] ∨ s.children.head? = some id := by
  constructor
  · intro ht
    by_contra hnot
    obtain ⟨n, s', hn⟩ := ht
    rw [exclRemoveFuel_stuck s id hnot n] at hn
    cases hn
  · intro hc
    rcases hc with hch | hh
    · refine ⟨1, s, ?_⟩
      unfold exclRemoveFuel
      rw [hch]
    · cases hch : s.children with
      | nil =>
        rw [hch] at hh
        cases hh
      | cons c rest =>
        rw [hch] at hh
        have hcid : c = id := by simpa using hh
        subst hcid
        refine ⟨1, { s with children := rest }, ?_⟩
        unfold exclRemoveFuel
        rw [hch]
        simp

/-- With the mutex never free and every clock sample past the deadline, the
try_lock loop never returns. -/
theorem tryLock_stuck_of_past (now0 timeout : Nat) (parent : Bool) (v : Option Nat)
    (avail : Nat → Bool) (clock : Nat → Nat)
    (ha : ∀ i, avail i = false) (hc : ∀ i, now0 + timeout < clock i) :
    TryLockStuck avail clock now0 timeout parent v := by
  intro n
  induction n with
  | zero => intro i; rfl
  | succ n ih =>
    intro i
    unfold tryLockFuel
    rw [ha i]
    simp only [Bool.false_eq_true, if_false]
    rw [if_pos (hc i)]
    exact ih (i + 1)

end OwnedPtrExcl

namespace OwnedPtr

/-- Claim C5: for every reachable state whose owner is alive, count() equals
the number of live readers whose owner-reference currently points at the
owner, under all completed sequences of attach/detach (construction, copy,
move, destruction, reset, lock, unlock). -/
theorem c5_count_eq_attached (s : SharedSys) (h : Reachable s) (hl : s.ownerLive = true) :
    count s = countParent s.readers := by
  have hinv := reach_inv s h
  unfold count
  exact hinv.count_eq hl

/-- Witness for C5 at a concrete reachable state. -/
theorem c5_witness : count c5WitS = countParent c5WitS.readers :=
  c5_count_eq_attached c5WitS ⟨some 3, [Op.newR 0, Op.attach 0], by decide⟩ rfl

/-- Claim C1 counterexample: attach reader 0, move-construct reader 1 from it,
reset to 2.  Reader 0 is still attached (its parent_ points at the live
owner), yet lock() returns the stale old value 1, not the owner's current
value 2. -/
theorem c1_counterexample :
    run (init (some 1)) [Op.newR 0, Op.attach 0, Op.move 0 1, Op.reset (some 2)]
        = some c1cexS ∧
      c1cexS.ownerLive = true ∧
      lookupR c1cexS.readers 0 = some ⟨some 1, none, true⟩ ∧
      c1cexS.value = some 2 ∧
      lockResult c1cexS 0 = some 1 := by decide

/-- Claim C1 (amended): restricted to readers whose registry membership agrees
with their parent_ flag.  In every reachable state: a reader in the registry
with parent_ set reads the owner's current value from lock() while the owner
is alive; a reader with parent_ clear outside the registry reads null; and
every reader in the registry when the owner's destructor starts reads null
from lock() after every later completed call sequence. -/
theorem c1_attached_lock_amended (s : SharedSys) (hreach : Reachable s) :
    (∀ id r, lookupR s.readers id = some r →
      (s.ownerLive = true → id ∈ s.children → r.parent = true → lockResult s id = s.value) ∧
      (r.parent = false → id ∉ s.children → lockResult s id = none)) ∧
    (∀ s1, dtorOOp s = some s1 → ∀ id, id ∈ s.children →
      ∀ ops s2, run s1 ops = some s2 → lockResult s2 id = none) := by
  have hinv := reach_inv s hreach
  constructor
  · intro id r hr
    constructor
    · intro hl hmem hp
      unfold lockResult
      rw [hr]
      exact hinv.synced hl id hmem r hr hp
    · intro hp hnm
      unfold lockResult
      rw [hr]
      exact hinv.detached id r hr hp hnm
  · intro s1 hdtor id hmem ops s2 hrun
    have hstep : step s Op.dtorO = some s1 := by
      simp only [step]
      exact hdtor
    have hreach1 : Reachable s1 := reachable_step s s1 Op.dtorO hreach hstep
    have hreach2 : Reachable s2 := reachable_run s1 s2 ops hreach1 hrun
    have hinv2 := reach_inv s2 hreach2
    unfold dtorOOp at hdtor
    split at hdtor
    · injection hdtor with hdtor
      subst hdtor
      have hP1 : ∀ r, lookupR (s.readers.map fun p =>
          if s.children.contains p.1 then (p.1, killReader p.2) else p) id = some r →
          r.parent = false := by
        intro r hr
        rw [lookupR_condMap] at hr
        cases hx : lookupR s.readers id with
        | none => rw [hx] at hr; cases hr
        | some r0 =>
          rw [hx] at hr
          injection hr with hr
          rw [(contains_iff s.children id).mpr hmem] at hr
          rw [← hr]
          simp [killReader]
      obtain ⟨hd2, hPrun⟩ := run_dead _ s2 ops rfl hrun
      have hP2 := hPrun id hP1
      unfold lockResult
      cases hy : lookupR s2.readers id with
      | none => rfl
      | some r2 => exact hinv2.dead hd2 id r2 hy (hP2 r2 hy)
    · cases hdtor

/-- Witness for C1 (amended) at a concrete reachable state. -/
theorem c1_witness : lockResult c1WitS 0 = c1WitS.value :=
  ((c1_attached_lock_amended c1WitS ⟨some 3, [Op.newR 0, Op.attach 0], by decide⟩).1 0
    ⟨some 3, none, true⟩ (by decide)).1 rfl (by decide) rfl

/-- Claim C2 counterexample: reader 0 attaches, locks the old value 1, then a
move construction makes it leave the registry while keeping parent_ set and
locked_ = 1.  reset(2) completes (and so frees the old value 1) even though
attached reader 0 still holds locked_ = 1 and never called unlock(). -/
theorem c2_counterexample :
    run (init (some 1)) [Op.newR 0, Op.attach 0, Op.lockR 0, Op.move 0 1] = some c2cexS ∧
      c2cexS.value = some 1 ∧
      lookupR c2cexS.readers 0 = some ⟨some 1, some 1, true⟩ ∧
      (resetOp c2cexS (some 2)).isSome = true := by decide

/-- Claim C2 (amended): restricted to readers present in the owner's registry.
When reset completes (the moment the old value is deleted), no registry
reader's locked_ still equals the old value, provided the new value is a
different pointer. -/
theorem c2_reset_waits_amended (s s' : SharedSys) (v : Option Nat) (a : Nat)
    (hreset : resetOp s v = some s') (hold : s.value = some a) (hne : v ≠ some a) :
    ∀ id, id ∈ s.children → lockedOf s id ≠ some a := by
  intro id hmem
  unfold resetOp at hreset
  split at hreset
  · split at hreset
    · rename_i hw
      have hmem' : id ∈ (scanned s v).children := hmem
      have hw' := List.all_eq_true.mp hw id hmem'
      have hsc : lockedOf (scanned s v) id = lockedOf s id := by
        unfold lockedOf scanned
        rw [lookupR_condMap]
        cases hx : lookupR s.readers id with
        | none => rfl
        | some r0 =>
          by_cases hm : id ∈ s.children
          · simp [hm, setValue]
          · simp [hm]
      rw [hsc] at hw'
      intro he
      rw [he] at hw'
      rcases (by simpa using hw' : some a = none ∨ some a = v) with h1 | h2
      · cases h1
      · exact hne h2.symm
    · cases hreset
  · cases hreset

/-- Witness for C2 (amended) at a concrete input. -/
theorem c2_witness : lockedOf c2WitS 0 ≠ some 1204 :=
  c2_reset_waits_amended c2WitS
    ⟨true, some 326, [0], [(0, ⟨some 326, none, true⟩)]⟩
    (some 326) 1204 (by decide) rfl (by decide) 0 (by decide)

end OwnedPtr

namespace OwnedPtr

/-- Claim C6 counterexample: reader 0 locks the old value 1 and is then
move-replaced in the registry; reset(2) completes without updating it, so
after unlock() and a fresh lock() it observes the stale value 1, not the new
value 2, although it is attached to the live owner. -/
theorem c6_counterexample :
    run (init (some 1))
        [Op.newR 0, Op.attach 0, Op.lockR 0, Op.move 0 1, Op.reset (some 2),
          Op.unlockR 0, Op.lockR 0] = some c6cexS ∧
      c6cexS.ownerLive = true ∧
      lookupR c6cexS.readers 0 = some ⟨some 1, some 1, true⟩ ∧
      c6cexS.value = some 2 ∧
      lockResult c6cexS 0 = some 1 := by decide

/-- Claim C6 (amended): restricted to readers present in the owner's registry.
A registry reader that locked before the reset keeps its held pointer (its
locked_ is untouched by the reset scan); once it unlocks, its in-use marker is
clear and the next lock() returns the new value.  A registry reader observes
the new value at its first lock() after a completed reset. -/
theorem c6_reset_visibility_amended (s : SharedSys) (id : Nat) (r : ReaderSt)
    (v' : Option Nat) (hmem : id ∈ s.children) (hr : lookupR s.readers id = some r) :
    (r.locked = s.value →
      lockedOf (scanned s v') id = s.value ∧
      lockedOf (unlockOp (scanned s v') id) id = none ∧
      lockResult (unlockOp (scanned s v') id) id = v') ∧
    (∀ s', resetOp s v' = some s' → lockResult s' id = v') := by
  have hx1 : lookupR (scanned s v').readers id = some (setValue v' r) := by
    unfold scanned
    rw [lookupR_condMap, hr]
    have hc := (contains_iff s.children id).mpr hmem
    simp only [Option.map_some']
    simp [hc]
    intro hnm
    exact absurd hmem hnm
  constructor
  · intro hlk
    refine ⟨?_, ?_, ?_⟩
    · unfold lockedOf
      rw [hx1]
      exact hlk
    · unfold lockedOf unlockOp
      rw [lookupR_update_self, hx1]
      rfl
    · unfold lockResult unlockOp
      rw [lookupR_update_self, hx1]
      rfl
  · intro s' hreset
    unfold resetOp at hreset
    split at hreset
    · split at hreset
      · injection hreset with hreset
        subst hreset
        unfold lockResult
        show (match lookupR (scanned s v').readers id with
          | some r => r.value
          | none => none) = v'
        rw [hx1]
        rfl
      · cases hreset
    · cases hreset

/-- Witness for C6 (amended) at a concrete input. -/
theorem c6_witness :
    lockResult (unlockOp (scanned c6WitS (some 326)) 0) 0 = some 326 :=
  (((c6_reset_visibility_amended c6WitS 0 ⟨some 1204, some 1204, true⟩ (some 326)
      (by decide) (by decide)).1 rfl).2).2

/-- A locked_ := nullptr update on a reader whose locked_ is already null
leaves the reader list unchanged. -/
theorem updateR_locked_none_eq (rs : List (Nat × ReaderSt)) (id : Nat) (r : ReaderSt)
    (hk : (rs.map Prod.fst).Nodup) (hr : lookupR rs id = some r) (hl : r.locked = none) :
    updateR rs id (fun r0 => { r0 with locked := none }) = rs := by
  induction rs with
  | nil => rfl
  | cons p rest ih =>
    simp only [List.map_cons, List.nodup_cons] at hk
    rw [updateR_cons]
    by_cases he : p.1 = id
    · have hpr : p.2 = r := by
        have := hr
        rw [lookupR_cons, if_pos he] at this
        exact Option.some.inj this
      rw [if_pos he, updateR_eq_of_not_mem rest id _ (he ▸ hk.1)]
      obtain ⟨p1, p2⟩ := p
      obtain ⟨rv, rl, rp⟩ := r
      simp only at hpr
      rw [hpr]
      simp only at hl
      rw [hl]
    · have hr' : lookupR rest id = some r := by
        have := hr
        rwa [lookupR_cons, if_neg he] at this
      rw [if_neg he, ih hk.2 hr']

/-- Claim C8: under the shared policy, unlock() on a reader that is not
locked is a harmless no-op: the call completes and the whole system state is
unchanged, so any later lock() by this or any other reader of the owner
behaves as if the spurious unlock() had not happened. -/
theorem c8_unlock_noop (s : SharedSys) (id : Nat) (r : ReaderSt)
    (hk : (s.readers.map Prod.fst).Nodup)
    (hr : lookupR s.readers id = some r) (hl : r.locked = none) :
    step s (Op.unlockR id) = some s := by
  simp only [step]
  rw [if_pos (by rw [hr]; rfl)]
  unfold unlockOp
  rw [updateR_locked_none_eq s.readers id r hk hr hl]

/-- Witness for C8 at a concrete input. -/
theorem c8_witness : step c8WitS (Op.unlockR 0) = some c8WitS :=
  c8_unlock_noop c8WitS 0 ⟨some 3, none, true⟩ (by decide) (by decide) rfl

/-- Claim C3: the removal helper's wait loop is inverted.  With the sought
reader first in the registry and mid-access (locked_ = 1 non-null), remove_
erases the entry immediately, while the reader is still mid-access; and with
the same reader idle (locked_ null), remove_ spins forever. -/
theorem c3_remove_wait_inverted :
    removeOp c3bugS 0 = some { c3bugS with children := [] } ∧
      lockedOf c3bugS 0 = some 1 ∧
      lockedOf c3idleS 0 = none ∧
      ¬ RemoveTerminates c3idleS 0 := by
  refine ⟨by decide, by decide, by decide, ?_⟩
  rw [removeTerminates_iff]
  decide

/-- Claim C4: after move-constructing reader 1 from attached reader 0, the
registry indeed holds exactly the entry for reader 1, but the moved-from
reader 0 still has parent_ pointing at the owner (it was never cleared) and
the new reader 1 has parent_ null and value_ null (they were never set). -/
theorem c4_move_leaves_source_attached :
    run (init (some 1)) [Op.newR 0, Op.attach 0, Op.move 0 1] = some c4bugS ∧
      c4bugS.children = [1] ∧
      lookupR c4bugS.readers 0 = some ⟨some 1, none, true⟩ ∧
      lookupR c4bugS.readers 1 = some ⟨none, none, false⟩ := by decide

/-- Claim C10 counterexample: the sought reader IS the first registry entry,
yet the shared variant's remove_ does not terminate, because its inner wait
spins while the reader's locked_ is null. -/
theorem c10_counterexample :
    c10cexS.children.head? = some 0 ∧ ¬ RemoveTerminates c10cexS 0 := by
  refine ⟨rfl, ?_⟩
  rw [removeTerminates_iff]
  decide

/-- Claim C10 (amended): the search loops never advance their iterator.
replace_ and the exclusive variant's remove_ terminate exactly when the
registry is empty or the sought reader is the first entry; the shared
variant's remove_ additionally requires the first entry's in-use marker to be
non-null.  In particular, whenever the first entry is a different reader, none
of the three operations terminates. -/
theorem c10_search_termination_amended (s : SharedSys) (id oldId newId : Nat)
    (e : OwnedPtrExcl.ExclSys) (eid : Nat) :
    (RemoveTerminates s id ↔
      s.children = [] ∨ (s.children.head? = some id ∧ lockedOf s id ≠ none)) ∧
    (ReplaceTerminates s oldId newId ↔ s.children = [] ∨ s.children.head? = some oldId) ∧
    (OwnedPtrExcl.ExclRemoveTerminates e eid ↔
      e.children = [] ∨ e.children.head? = some eid) :=
  ⟨removeTerminates_iff s id, replaceTerminates_iff s oldId newId,
    OwnedPtrExcl.exclRemoveTerminates_iff e eid⟩

end OwnedPtr

namespace OwnedPtrExcl

/-- Claim C7: the try_lock loop condition is inverted.  First conjunct:
starting at time 100 with budget 10, the child's mutex still held at the
first poll but free from the second poll on (well within the budget, the clock
still reading 100), try_lock returns null rather than acquiring the lock.
Second conjunct: when every clock sample is already past the deadline and the
mutex is never free, try_lock loops forever instead of returning null. -/
theorem c7_trylock_inverted_timeout :
    (tryLockFuel availLate clockStill 100 10 true (some 42) 5 0 = some none ∧
      availLate 1 = true ∧ clockStill 1 ≤ 100 + 10) ∧
    TryLockStuck availNever clockPast 100 10 true (some 42) := by
  refine ⟨by decide, ?_⟩
  exact tryLock_stuck_of_past 100 10 true (some 42) availNever clockPast
    (fun i => rfl) (fun i => (by decide : 100 + 10 < 200))

/-- Claim C9: in the exclusive variant, lock() acquires only the child's own
mutex and never the owner's.  From a state with two attached children, child
0's lock() returns the value while the owner's mutex stays free, child 1's
lock() then also completes and returns the value during child 0's locked
interval, and child 0's unlock() attempts to release the owner's mutex that
was never acquired (undefined behavior, modelled as none). -/
theorem c9_lock_not_exclusive :
    exclLock c9bugS 0 = some (some 7, c9bugS1) ∧
      c9bugS1.ownerMtx = false ∧
      exclLock c9bugS1 1 = some (some 7,
        ⟨some 7, false, [0, 1], [(0, ⟨true, true, true⟩), (1, ⟨true, true, true⟩)]⟩) ∧
      exclUnlock c9bugS1 0 = none := by decide

end OwnedPtrExcl
